import Mathlib

/-!
Shallow embedding of the hot-path core of the `hft_engine` repository
(fixed-point types, SPSC ring buffer, latency histogram, L2 order book,
EWMA / mean-reversion strategy, risk gate, execution engine, kill switch,
asynchronous logger), together with theorems settling the spec claims.

Modelling conventions:
* `int64_t` tick counts are modelled as `Int` (the spec declares overflow
  out of the domain: values must fit in the 64-bit range).
* `double` is modelled as `ℚ` (exact real-valued arithmetic); the claims
  settled over this model involve no inexact rounding steps other than the
  ones modelled explicitly (`round_dbl`).
* Stateful C++ objects become Lean structures with explicit state passing.
* The engine run carries observation traces (audit records, assigned order
  ids, gateway sends) so that theorems can speak about what happened.
-/

namespace Hft

/-! ## core/types.hpp -/

/-- The `PRICE_SCALE = 100'000'000` from core/types.hpp. -/
def PRICE_SCALE : Int := 100000000

/-- The `QTY_SCALE = 100'000'000` from core/types.hpp. -/
def QTY_SCALE : Int := 100000000

/-- The `Side` from core/types.hpp: `None = 0, Buy = 1, Sell = 2`. -/
inductive Side where
  | none
  | buy
  | sell
deriving DecidableEq, Repr

/-- The `round_dbl` from core/types.hpp: `static_cast<int64_t>(x >= 0.0 ? x + 0.5 : x - 0.5)`.
`static_cast` truncates toward zero, which is `⌊·⌋` on nonnegative arguments
and `⌈·⌉` on negative ones (and `x + 0.5 ≥ 0` whenever `x ≥ 0`, while
`x - 0.5 < 0` whenever `x < 0`). -/
def round_dbl (x : ℚ) : Int :=
  if 0 ≤ x then ⌊x + 1/2⌋ else ⌈x - 1/2⌉

/-- The `Price` from core/types.hpp: a signed 64-bit count of 1e-8 ticks. -/
structure Price where
  ticks : Int
deriving DecidableEq, Repr

/-- The `Price::from_float` from core/types.hpp. -/
def Price.from_float (p : ℚ) : Price :=
  ⟨round_dbl (p * (PRICE_SCALE : ℚ))⟩

/-- The `Price::to_float` from core/types.hpp. -/
def Price.to_float (p : Price) : ℚ :=
  (p.ticks : ℚ) / (PRICE_SCALE : ℚ)

/-- The `Quantity` from core/types.hpp: a signed 64-bit count of 1e-8 base units. -/
structure Quantity where
  amount : Int
deriving DecidableEq, Repr

/-- The `Quantity::from_float` from core/types.hpp. -/
def Quantity.from_float (q : ℚ) : Quantity :=
  ⟨round_dbl (q * (QTY_SCALE : ℚ))⟩

/-- The `Quantity::to_float` from core/types.hpp. -/
def Quantity.to_float (q : Quantity) : ℚ :=
  (q.amount : ℚ) / (QTY_SCALE : ℚ)

/-! ## execution/risk_check.hpp (src/unnamed/part_008) -/

/-- The `OrderCommand` from order_gateway_interface.hpp (src/unnamed/part_008). -/
structure OrderCommand where
  symbol_id : Nat
  order_id : Nat
  price : Price
  qty : Quantity
  side : Side
deriving DecidableEq, Repr

/-- The `RiskConfig` from risk_check.hpp (src/unnamed/part_008). -/
structure RiskConfig where
  max_order_qty : Quantity
  max_price_deviation : Price
  max_orders_per_sec : Int
deriving Repr

/-- The `RiskCheck` from risk_check.hpp: holds the configuration. -/
structure RiskCheck where
  config : RiskConfig

/-- The `RiskCheck::check_new_order` from risk_check.hpp (src/unnamed/part_008,
lines 64-86).  Check 1 is the max-qty comparison, check 2 the fat-finger
price-deviation comparison on raw ticks; the rate limit ("Check 3") is
omitted in the source, and the source never reads the kill switch. -/
def RiskCheck.check_new_order (r : RiskCheck) (cmd : OrderCommand)
    (ref_price : Price) : Bool :=
  if cmd.qty.amount > r.config.max_order_qty.amount then
    false
  else
    let diff := cmd.price.ticks - ref_price.ticks
    let diff := if diff < 0 then -diff else diff
    if diff > r.config.max_price_deviation.ticks then
      false
    else
      true

/-! ## Claim C7: the price-deviation check on raw ticks -/

/-- C7: given the risk quantity check passes (`cmd.qty ≤ max_order_qty`),
`check_new_order` passes iff `|cmd.price.ticks - ref_price.ticks| ≤
config.max_price_deviation.ticks`, the comparison being on raw integer
ticks. -/
theorem check_new_order_price_deviation (r : RiskCheck) (cmd : OrderCommand)
    (ref_price : Price) (hqty : cmd.qty.amount ≤ r.config.max_order_qty.amount) :
    r.check_new_order cmd ref_price = true ↔
      |cmd.price.ticks - ref_price.ticks| ≤ r.config.max_price_deviation.ticks := by
  simp only [RiskCheck.check_new_order]
  rw [if_neg (not_lt.mpr hqty), abs_le]
  split_ifs with h1 h2
  · simp only [Bool.false_eq_true, false_iff]
    omega
  · simp only [eq_self_iff_true, true_iff]
    omega
  · simp only [Bool.false_eq_true, false_iff]
    omega
  · simp only [eq_self_iff_true, true_iff]
    omega

/-- Witness for C7 at a concrete input: qty 5 ≤ 10, price 105 vs reference
100 with allowed deviation 5 passes. -/
theorem check_new_order_price_deviation_witness :
    (5 : Int) ≤ 10 ∧
      ((RiskCheck.mk ⟨⟨10⟩, ⟨5⟩, 100⟩).check_new_order ⟨1, 1, ⟨105⟩, ⟨5⟩, Side.buy⟩ ⟨100⟩ = true ↔
        |(105 : Int) - 100| ≤ 5) :=
  ⟨by decide,
   check_new_order_price_deviation (RiskCheck.mk ⟨⟨10⟩, ⟨5⟩, 100⟩)
     ⟨1, 1, ⟨105⟩, ⟨5⟩, Side.buy⟩ ⟨100⟩ (by decide)⟩

/-! ## Claim C8: `from_float` / `to_float` round trip -/

/-- Half-away-from-zero rounding is within 1/2 of its argument. -/
theorem abs_round_dbl_sub_le (x : ℚ) : |((round_dbl x : ℚ)) - x| ≤ 1/2 := by
  unfold round_dbl
  split
  · rw [abs_le]
    constructor
    · have h := Int.sub_one_lt_floor (x + 1/2)
      push_cast at h ⊢
      linarith
    · have h := Int.floor_le (x + 1/2)
      push_cast at h ⊢
      linarith
  · rw [abs_le]
    constructor
    · have h := Int.le_ceil (x - 1/2)
      push_cast at h ⊢
      linarith
    · have h := Int.ceil_lt_add_one (x - 1/2)
      push_cast at h ⊢
      linarith

/-- C8: for every `p : ℚ` (the exact-arithmetic model of `double`),
`|Price.from_float(p).to_float() - p| ≤ 1 / PRICE_SCALE`. -/
theorem from_float_to_float_close (p : ℚ) :
    |(Price.from_float p).to_float - p| ≤ 1 / (PRICE_SCALE : ℚ) := by
  unfold Price.from_float Price.to_float
  have hS : ((PRICE_SCALE : Int) : ℚ) = 100000000 := by norm_num [PRICE_SCALE]
  have h := abs_round_dbl_sub_le (p * (PRICE_SCALE : ℚ))
  rw [show ((Price.mk (round_dbl (p * ((PRICE_SCALE : Int) : ℚ)))).ticks : ℚ)
        = ((round_dbl (p * ((PRICE_SCALE : Int) : ℚ))) : ℚ) from rfl]
  rw [hS] at h ⊢
  rw [show ((round_dbl (p * 100000000) : ℚ)) / 100000000 - p
        = (((round_dbl (p * 100000000) : ℚ)) - p * 100000000) / 100000000 by ring]
  rw [abs_div, show |(100000000 : ℚ)| = 100000000 by norm_num]
  rw [div_le_div_iff₀ (by norm_num) (by norm_num)]
  nlinarith [h]

/-! ## data/market_data_types.hpp -/

/-- The `UpdateType` from data/market_data_types.hpp. -/
inductive UpdateType where
  | trade
  | bbo
  | update
  | snapshot
deriving DecidableEq, Repr

/-- The `MDHeader` from data/market_data_types.hpp.  Timestamps are `int64_t`
nanosecond counts, modelled as `Int`. -/
structure MDHeader where
  exchange_ts : Int
  local_ts : Int
  symbol_id : Nat
  type : UpdateType
deriving DecidableEq, Repr

/-- The `TradeUpdate` from data/market_data_types.hpp. -/
structure TradeUpdate where
  header : MDHeader
  price : Price
  qty : Quantity
  side : Side
deriving DecidableEq, Repr

/-- The `LevelUpdate` from data/market_data_types.hpp; `qty = 0` means delete
that price level. -/
structure LevelUpdate where
  header : MDHeader
  price : Price
  qty : Quantity
  side : Side
deriving DecidableEq, Repr

/-! ## The L2 order book (src/unnamed/part_000, `class OrderBook`)

`std::map<Price, Quantity>` is modelled as an association list with
no duplicate keys (`AList`); the claims settled here depend only on the
key-value mapping, not on the key order. -/

/-- Order book state: `bids_`, `asks_`, `last_update_ts_`. -/
structure OrderBook where
  bids : AList (fun _ : Price => Quantity)
  asks : AList (fun _ : Price => Quantity)
  last_update_ts : Int

/-- A book with both sides empty and `last_update_ts_ = 0` (the default
construction in the source). -/
def OrderBook.empty : OrderBook := ⟨∅, ∅, 0⟩

/-- The `OrderBook::apply_update` (src/unnamed/part_000, lines 52-64): the side
map is `bids_` when `update.side == Side::Buy` and `asks_` otherwise;
`qty == 0` erases the price, anything else inserts-or-overwrites; finally
`last_update_ts_ = update.header.local_ts`. -/
def OrderBook.apply_update (b : OrderBook) (u : LevelUpdate) : OrderBook :=
  if u.side = Side.buy then
    { b with
      bids := if u.qty.amount = 0 then b.bids.erase u.price else b.bids.insert u.price u.qty,
      last_update_ts := u.header.local_ts }
  else
    { b with
      asks := if u.qty.amount = 0 then b.asks.erase u.price else b.asks.insert u.price u.qty,
      last_update_ts := u.header.local_ts }

/-- Fold a whole sequence of level updates into a book. -/
def applyUpdates (us : List LevelUpdate) (b : OrderBook) : OrderBook :=
  us.foldl OrderBook.apply_update b

/-! ## Claim C10: `apply_update` frame and side routing -/

/-- C10: `apply_update` writes `last_update_ts` from the header, routes a
`Side::Buy` update to the bids map leaving asks untouched, and routes every
other side value (including `Side::None` and `Side::Sell`) to the asks map
leaving bids untouched. -/
theorem apply_update_frame (b : OrderBook) (u : LevelUpdate) :
    (b.apply_update u).last_update_ts = u.header.local_ts ∧
    (u.side = Side.buy →
      (b.apply_update u).asks = b.asks ∧
      (b.apply_update u).bids =
        (if u.qty.amount = 0 then b.bids.erase u.price else b.bids.insert u.price u.qty)) ∧
    (u.side ≠ Side.buy →
      (b.apply_update u).bids = b.bids ∧
      (b.apply_update u).asks =
        (if u.qty.amount = 0 then b.asks.erase u.price else b.asks.insert u.price u.qty)) := by
  unfold OrderBook.apply_update
  by_cases h : u.side = Side.buy
  · simp [h]
  · simp [h]

/-- Witness for C10: a `Side::None` update routes to the asks map and
leaves the bids map unchanged. -/
theorem apply_update_frame_witness :
    (OrderBook.empty.apply_update
        ⟨⟨0, 0, 1, UpdateType.update⟩, ⟨100⟩, ⟨5⟩, Side.none⟩).bids = OrderBook.empty.bids :=
  ((apply_update_frame OrderBook.empty
      ⟨⟨0, 0, 1, UpdateType.update⟩, ⟨100⟩, ⟨5⟩, Side.none⟩).2.2 (by decide)).1

/-! ## Claim C2: last-write-wins for the book -/

/-- The last update in a sequence carrying a given price (either side),
as quantified by the claim. -/
def lastUpdateAt (us : List LevelUpdate) (p : Price) : Option LevelUpdate :=
  (us.filter (fun u => decide (u.price = p))).getLast?

/-- Claim C2 exactly as stated: after applying a sequence to the empty
book, a price whose last update (on either side) carried non-zero qty is
present in the book with exactly that qty, and a price whose last update
carried qty 0 has no entry in the book at all. -/
def bookLastQtyClaim : Prop :=
  ∀ (us : List LevelUpdate) (p : Price) (u : LevelUpdate),
    lastUpdateAt us p = some u →
      (u.qty.amount ≠ 0 →
        ((applyUpdates us OrderBook.empty).bids.lookup p = some u.qty ∨
         (applyUpdates us OrderBook.empty).asks.lookup p = some u.qty)) ∧
      (u.qty.amount = 0 →
        ((applyUpdates us OrderBook.empty).bids.lookup p = none ∧
         (applyUpdates us OrderBook.empty).asks.lookup p = none))

/-- A buy update at price 100 qty 5, then a sell update at price 100
qty 0: the sell delete only touches the asks map, so price 100 is still
on the bid side although its last update carried qty 0. -/
theorem bookLastQtyClaim_false : ¬ bookLastQtyClaim := by
  intro h
  have h2 :=
    (h [⟨⟨0, 0, 1, UpdateType.update⟩, ⟨100⟩, ⟨5⟩, Side.buy⟩,
        ⟨⟨0, 0, 1, UpdateType.update⟩, ⟨100⟩, ⟨0⟩, Side.sell⟩] ⟨100⟩
       ⟨⟨0, 0, 1, UpdateType.update⟩, ⟨100⟩, ⟨0⟩, Side.sell⟩ (by decide)).2 rfl
  have h3 : (applyUpdates
      [⟨⟨0, 0, 1, UpdateType.update⟩, ⟨100⟩, ⟨5⟩, Side.buy⟩,
       ⟨⟨0, 0, 1, UpdateType.update⟩, ⟨100⟩, ⟨0⟩, Side.sell⟩]
      OrderBook.empty).bids.lookup ⟨100⟩ = some ⟨5⟩ := by decide
  rw [h2.1] at h3
  exact Option.noConfusion h3

/-- Whether `apply_update` routes an update to the bids map
(`update.side == Side::Buy`) rather than the asks map. -/
def routesToBids (u : LevelUpdate) : Bool := decide (u.side = Side.buy)

/-- The last update of a sequence routed to the given side map and
carrying the given price. -/
def lastSideUpdateAt (us : List LevelUpdate) (isBid : Bool) (p : Price) :
    Option LevelUpdate :=
  (us.filter (fun u => decide (routesToBids u = isBid ∧ u.price = p))).getLast?

/-- What a side map should hold at a price, given the last update routed
there: nothing for a delete (qty 0) or when no update ever touched the
price, and exactly the last non-zero qty otherwise. -/
def sideResult : Option LevelUpdate → Option Quantity
  | Option.none => Option.none
  | Option.some u => if u.qty.amount = 0 then Option.none else Option.some u.qty

theorem lastSideUpdateAt_append (l : List LevelUpdate) (u : LevelUpdate)
    (isBid : Bool) (p : Price) :
    lastSideUpdateAt (l ++ [u]) isBid p =
      if routesToBids u = isBid ∧ u.price = p then some u
      else lastSideUpdateAt l isBid p := by
  unfold lastSideUpdateAt
  rw [List.filter_append]
  by_cases h : routesToBids u = isBid ∧ u.price = p
  · rw [if_pos h]
    simp [h]
  · rw [if_neg h]
    simp [h]

/-- One insert-or-erase step on a single side map preserves the
last-write-wins description of its lookups. -/
theorem lookup_after (m : AList (fun _ : Price => Quantity)) (u : LevelUpdate)
    (p : Price) (prev : Option LevelUpdate) (hm : m.lookup p = sideResult prev) :
    ((if u.qty.amount = 0 then m.erase u.price else m.insert u.price u.qty).lookup p)
      = sideResult (if u.price = p then some u else prev) := by
  by_cases hp : u.price = p
  · subst hp
    rw [if_pos rfl]
    by_cases hq : u.qty.amount = 0
    · rw [if_pos hq]
      simp only [sideResult, if_pos hq]
      exact AList.lookup_erase _ _
    · rw [if_neg hq]
      simp only [sideResult, if_neg hq]
      exact AList.lookup_insert _
  · rw [if_neg hp]
    have hp' : p ≠ u.price := fun hh => hp hh.symm
    by_cases hq : u.qty.amount = 0
    · rw [if_pos hq, AList.lookup_erase_ne hp']
      exact hm
    · rw [if_neg hq, AList.lookup_insert_ne hp']
      exact hm

/-- C2 as amended: the two side maps are keyed independently, with a buy
update routed to bids and any other update routed to asks.  After applying
a sequence to the empty book, each side map holds a price iff the last
update routed to that side map at that price carried non-zero qty, and
then holds exactly that qty. -/
theorem applyUpdates_lookup (us : List LevelUpdate) (p : Price) :
    (applyUpdates us OrderBook.empty).bids.lookup p =
      sideResult (lastSideUpdateAt us true p) ∧
    (applyUpdates us OrderBook.empty).asks.lookup p =
      sideResult (lastSideUpdateAt us false p) := by
  induction us using List.reverseRecOn with
  | nil =>
      constructor <;> simp [applyUpdates, OrderBook.empty, lastSideUpdateAt, sideResult]
  | append_singleton l u ih =>
      have hfold : applyUpdates (l ++ [u]) OrderBook.empty =
          (applyUpdates l OrderBook.empty).apply_update u := by
        simp [applyUpdates, List.foldl_append]
      rw [hfold, lastSideUpdateAt_append, lastSideUpdateAt_append]
      unfold OrderBook.apply_update
      by_cases hside : u.side = Side.buy
      · have hr : routesToBids u = true := by simp [routesToBids, hside]
        rw [if_pos hside]
        refine ⟨?_, ?_⟩
        · have hcond :
              (if routesToBids u = true ∧ u.price = p then some u
               else lastSideUpdateAt l true p)
                = (if u.price = p then some u else lastSideUpdateAt l true p) := by
            by_cases hp : u.price = p <;> simp [hr, hp]
          rw [hcond]
          exact lookup_after _ u p _ ih.1
        · rw [if_neg (show ¬(routesToBids u = false ∧ u.price = p) by simp [hr])]
          exact ih.2
      · have hr : routesToBids u = false := by simp [routesToBids, hside]
        rw [if_neg hside]
        refine ⟨?_, ?_⟩
        · rw [if_neg (show ¬(routesToBids u = true ∧ u.price = p) by simp [hr])]
          exact ih.1
        · have hcond :
              (if routesToBids u = false ∧ u.price = p then some u
               else lastSideUpdateAt l false p)
                = (if u.price = p then some u else lastSideUpdateAt l false p) := by
            by_cases hp : u.price = p <;> simp [hr, hp]
          rw [hcond]
          exact lookup_after _ u p _ ih.2

/-! ## core/benchmark.hpp (src/unnamed/part_003): latency histogram -/

/-- The `INT64_MAX`, the sentinel used as the last bucket threshold. -/
def INT64_MAX : Int := 9223372036854775807

/-- The `NUM_BUCKETS = 7`. -/
def NUM_BUCKETS : Nat := 7

/-- The `BUCKET_THRESHOLDS` (src/unnamed/part_003, lines 22-30): exclusive
upper bounds of the seven buckets; the last entry is `INT64_MAX`, not an
actual positive infinity. -/
def BUCKET_THRESHOLDS : List Int :=
  [100, 500, 1000, 10000, 100000, 1000000, INT64_MAX]

/-- The bucket-selection loop of `LatencyHistogram::record`: the index of
the first threshold strictly greater than the sample, if any (the loop
body runs `break` after the first increment; if no threshold matches, no
bucket is touched). -/
def bucketIndexAux (lat : Int) : List Int → Option Nat
  | [] => Option.none
  | t :: ts => if lat < t then Option.some 0 else (bucketIndexAux lat ts).map (· + 1)

/-- Which bucket `LatencyHistogram::record` increments for a sample. -/
def bucketIndex (lat : Int) : Option Nat :=
  bucketIndexAux lat BUCKET_THRESHOLDS

/-- The `LatencyHistogram` state (buckets array plus running stats); the
bucket array is modelled as a function from index to count. -/
structure LatencyHistogram where
  buckets : Nat → Int
  count : Int
  sum : Int
  min : Int
  max : Int

/-- The constructor: zero buckets/count/sum, `min = INT64_MAX`, `max = 0`. -/
def LatencyHistogram.init : LatencyHistogram :=
  ⟨fun _ => 0, 0, 0, INT64_MAX, 0⟩

/-- The `LatencyHistogram::record` (src/unnamed/part_003, lines 47-73), in the
sequential (single-thread) semantics: bump count and sum, fold the sample
into min and max, and increment the first bucket whose threshold exceeds
the sample (none when no threshold does). -/
def LatencyHistogram.record (h : LatencyHistogram) (latency_ns : Int) :
    LatencyHistogram :=
  let h1 : LatencyHistogram :=
    { h with
      count := h.count + 1
      sum := h.sum + latency_ns
      min := if latency_ns < h.min then latency_ns else h.min
      max := if latency_ns > h.max then latency_ns else h.max }
  match bucketIndex latency_ns with
  | Option.some i => { h1 with buckets := Function.update h1.buckets i (h1.buckets i + 1) }
  | Option.none => h1

/-! ## Claim C5: bucket selection -/

/-- The claim's bucket-bound set, with an actual `+∞` as the last bound
(`WithTop Int`), following the spec's words. -/
def SPEC_BUCKET_BOUNDS : List (WithTop Int) :=
  [((100 : Int) : WithTop Int), ((500 : Int) : WithTop Int),
   ((1000 : Int) : WithTop Int), ((10000 : Int) : WithTop Int),
   ((100000 : Int) : WithTop Int), ((1000000 : Int) : WithTop Int), ⊤]

/-- Claim C5 as stated: every int64 sample lands in some bucket, namely
the first whose (exclusive) upper bound in
`{100, 500, 1000, 10000, 100000, 1000000, +∞}` exceeds it. -/
def histogramClaim : Prop :=
  ∀ lat : Int, -9223372036854775808 ≤ lat → lat ≤ 9223372036854775807 →
    ∃ i, bucketIndex lat = Option.some i ∧
      (lat : WithTop Int) < SPEC_BUCKET_BOUNDS.getD i ⊤ ∧
      ∀ j, j < i → SPEC_BUCKET_BOUNDS.getD j ⊤ ≤ (lat : WithTop Int)

/-- The sample `INT64_MAX` itself is a valid int64 latency, but the code's
last threshold is `INT64_MAX` with a strict comparison, so the loop
increments no bucket at all for it. -/
theorem histogramClaim_false : ¬ histogramClaim := by
  intro h
  obtain ⟨i, hi, -, -⟩ := h 9223372036854775807 (by decide) (by decide)
  have hnone : bucketIndex 9223372036854775807 = Option.none := by decide
  rw [hnone] at hi
  exact Option.noConfusion hi

/-- The `record` increments exactly the selected bucket. -/
theorem record_update (lat : Int) (i : Nat)
    (hb : bucketIndex lat = Option.some i) (h : LatencyHistogram) :
    (h.record lat).buckets i = h.buckets i + 1 ∧
      ∀ j, j ≠ i → (h.record lat).buckets j = h.buckets j := by
  unfold LatencyHistogram.record
  rw [hb]
  constructor
  · simp [Function.update_same]
  · intro j hj
    simp [Function.update_noteq hj]

/-- Bucket selection is total below `INT64_MAX` and picks the first
matching threshold. -/
theorem bucketIndex_spec (lat : Int) (hhi : lat < INT64_MAX) :
    ∃ i, i < NUM_BUCKETS ∧ bucketIndex lat = Option.some i ∧
      lat < BUCKET_THRESHOLDS.getD i 0 ∧
      ∀ j, j < i → BUCKET_THRESHOLDS.getD j 0 ≤ lat := by
  rcases lt_or_le lat 100 with h0 | h0
  · refine ⟨0, by norm_num [NUM_BUCKETS], ?_, ?_, ?_⟩
    · simp [bucketIndex, BUCKET_THRESHOLDS, bucketIndexAux, h0]
    · simpa [BUCKET_THRESHOLDS] using h0
    · intro j hj
      omega
  rcases lt_or_le lat 500 with h1 | h1
  · refine ⟨1, by norm_num [NUM_BUCKETS], ?_, ?_, ?_⟩
    · simp [bucketIndex, BUCKET_THRESHOLDS, bucketIndexAux, not_lt.mpr h0, h1]
    · simpa [BUCKET_THRESHOLDS] using h1
    · intro j hj
      interval_cases j
      · simpa [BUCKET_THRESHOLDS] using h0
  rcases lt_or_le lat 1000 with h2 | h2
  · refine ⟨2, by norm_num [NUM_BUCKETS], ?_, ?_, ?_⟩
    · simp [bucketIndex, BUCKET_THRESHOLDS, bucketIndexAux, not_lt.mpr h0,
        not_lt.mpr h1, h2]
    · simpa [BUCKET_THRESHOLDS] using h2
    · intro j hj
      interval_cases j
      · simpa [BUCKET_THRESHOLDS] using h0
      · simpa [BUCKET_THRESHOLDS] using h1
  rcases lt_or_le lat 10000 with h3 | h3
  · refine ⟨3, by norm_num [NUM_BUCKETS], ?_, ?_, ?_⟩
    · simp [bucketIndex, BUCKET_THRESHOLDS, bucketIndexAux, not_lt.mpr h0,
        not_lt.mpr h1, not_lt.mpr h2, h3]
    · simpa [BUCKET_THRESHOLDS] using h3
    · intro j hj
      interval_cases j
      · simpa [BUCKET_THRESHOLDS] using h0
      · simpa [BUCKET_THRESHOLDS] using h1
      · simpa [BUCKET_THRESHOLDS] using h2
  rcases lt_or_le lat 100000 with h4 | h4
  · refine ⟨4, by norm_num [NUM_BUCKETS], ?_, ?_, ?_⟩
    · simp [bucketIndex, BUCKET_THRESHOLDS, bucketIndexAux, not_lt.mpr h0,
        not_lt.mpr h1, not_lt.mpr h2, not_lt.mpr h3, h4]
    · simpa [BUCKET_THRESHOLDS] using h4
    · intro j hj
      interval_cases j
      · simpa [BUCKET_THRESHOLDS] using h0
      · simpa [BUCKET_THRESHOLDS] using h1
      · simpa [BUCKET_THRESHOLDS] using h2
      · simpa [BUCKET_THRESHOLDS] using h3
  rcases lt_or_le lat 1000000 with h5 | h5
  · refine ⟨5, by norm_num [NUM_BUCKETS], ?_, ?_, ?_⟩
    · simp [bucketIndex, BUCKET_THRESHOLDS, bucketIndexAux, not_lt.mpr h0,
        not_lt.mpr h1, not_lt.mpr h2, not_lt.mpr h3, not_lt.mpr h4, h5]
    · simpa [BUCKET_THRESHOLDS] using h5
    · intro j hj
      interval_cases j
      · simpa [BUCKET_THRESHOLDS] using h0
      · simpa [BUCKET_THRESHOLDS] using h1
      · simpa [BUCKET_THRESHOLDS] using h2
      · simpa [BUCKET_THRESHOLDS] using h3
      · simpa [BUCKET_THRESHOLDS] using h4
  · refine ⟨6, by norm_num [NUM_BUCKETS], ?_, ?_, ?_⟩
    · simp [bucketIndex, BUCKET_THRESHOLDS, bucketIndexAux, not_lt.mpr h0,
        not_lt.mpr h1, not_lt.mpr h2, not_lt.mpr h3, not_lt.mpr h4,
        not_lt.mpr h5, hhi]
    · simpa [BUCKET_THRESHOLDS] using hhi
    · intro j hj
      interval_cases j
      · simpa [BUCKET_THRESHOLDS] using h0
      · simpa [BUCKET_THRESHOLDS] using h1
      · simpa [BUCKET_THRESHOLDS] using h2
      · simpa [BUCKET_THRESHOLDS] using h3
      · simpa [BUCKET_THRESHOLDS] using h4
      · simpa [BUCKET_THRESHOLDS] using h5

/-- C5 as amended: for every int64 sample except `INT64_MAX` itself,
`record` increments exactly one bucket, the first whose exclusive upper
bound in `{100, 500, 1000, 10000, 100000, 1000000, INT64_MAX}` exceeds
the sample; 99 and -5 land in bucket 0, 100 in bucket 1, and 10^18 in
bucket 6 (`>=1ms`).  A sample equal to `INT64_MAX` increments no bucket
(see the counterexample to the claim as stated). -/
theorem record_bucket_behavior (lat : Int)
    (_hlo : -9223372036854775808 ≤ lat) (hhi : lat < INT64_MAX) :
    (∃ i, i < NUM_BUCKETS ∧ bucketIndex lat = Option.some i ∧
      lat < BUCKET_THRESHOLDS.getD i 0 ∧
      (∀ j, j < i → BUCKET_THRESHOLDS.getD j 0 ≤ lat) ∧
      ∀ h : LatencyHistogram,
        (h.record lat).buckets i = h.buckets i + 1 ∧
        ∀ j, j ≠ i → (h.record lat).buckets j = h.buckets j) ∧
    INT64_MAX = 2 ^ 63 - 1 ∧
    bucketIndex 99 = Option.some 0 ∧ bucketIndex 100 = Option.some 1 ∧
    bucketIndex (-5) = Option.some 0 ∧
    bucketIndex 1000000000000000000 = Option.some 6 := by
  refine ⟨?_, by norm_num [INT64_MAX], by decide, by decide, by decide, by decide⟩
  obtain ⟨i, hni, hb, hlt, hfirst⟩ := bucketIndex_spec lat hhi
  exact ⟨i, hni, hb, hlt, hfirst, fun h => record_update lat i hb h⟩

/-- Witness for C5 at the concrete sample 99. -/
theorem record_bucket_behavior_witness :
    ((-9223372036854775808 : Int) ≤ 99 ∧ (99 : Int) < INT64_MAX) ∧
      ((∃ i, i < NUM_BUCKETS ∧ bucketIndex 99 = Option.some i ∧
          (99 : Int) < BUCKET_THRESHOLDS.getD i 0 ∧
          (∀ j, j < i → BUCKET_THRESHOLDS.getD j 0 ≤ (99 : Int)) ∧
          ∀ h : LatencyHistogram,
            (h.record 99).buckets i = h.buckets i + 1 ∧
            ∀ j, j ≠ i → (h.record 99).buckets j = h.buckets j) ∧
        INT64_MAX = 2 ^ 63 - 1 ∧
        bucketIndex 99 = Option.some 0 ∧ bucketIndex 100 = Option.some 1 ∧
        bucketIndex (-5) = Option.some 0 ∧
        bucketIndex 1000000000000000000 = Option.some 6) :=
  ⟨⟨by decide, by decide⟩, record_bucket_behavior 99 (by decide) (by decide)⟩

/-! ## features/feature_calculator.hpp (src/unnamed/part_004): EWMA -/

/-- The `EWMA` state (the `initialized_` flag is named `isInit` here). -/
structure EWMA where
  alpha : ℚ
  value : ℚ
  isInit : Bool

/-- The `EWMA(alpha)` constructor: `value_ = 0.0`, not initialized. -/
def EWMA.make (alpha : ℚ) : EWMA := ⟨alpha, 0, false⟩

/-- The `EWMA::update`: the first sample is adopted verbatim; later samples
are blended with weight alpha. -/
def EWMA.update (e : EWMA) (x : ℚ) : EWMA :=
  if e.isInit = false then
    { e with value := x, isInit := true }
  else
    { e with value := e.alpha * x + (1 - e.alpha) * e.value }

/-! ## models/model_interface.hpp (src/unnamed/part_006): Signal -/

/-- The `Signal` with its in-class default member initializers. -/
structure Signal where
  should_trade : Bool := false
  symbol_id : Nat := 0
  side : Side := Side.none
  price : Price := ⟨0⟩
  qty : Quantity := ⟨0⟩
  ref_price : Price := ⟨0⟩
deriving DecidableEq, Repr

/-! ## models/stat_arb.hpp (src/unnamed/part_005): mean-reversion strategy -/

/-- The `StatArbStrategy` state. -/
structure StatArbStrategy where
  target_id : Nat
  threshold : ℚ
  price_ewma : EWMA

/-- The `StatArbStrategy(target_id, entry_threshold)` constructor:
`price_ewma_(0.1)`. -/
def StatArbStrategy.make (target_id : Nat) (entry_threshold : ℚ) : StatArbStrategy :=
  ⟨target_id, entry_threshold, EWMA.make (1/10)⟩

/-- The `StatArbStrategy::on_trade` (src/unnamed/part_005, lines 15-48),
returning the signal together with the updated strategy state. -/
def StatArbStrategy.on_trade (st : StatArbStrategy) (trade : TradeUpdate) :
    Signal × StatArbStrategy :=
  if trade.header.symbol_id ≠ st.target_id then
    ({}, st)
  else
    let px := trade.price.to_float
    let e := st.price_ewma.update px
    let st' := { st with price_ewma := e }
    let fairness := e.value
    let deviation := px - fairness
    if deviation > st.threshold then
      ({ should_trade := true, symbol_id := st.target_id, side := Side.sell,
         price := trade.price, qty := Quantity.from_float (1/100),
         ref_price := Price.from_float fairness }, st')
    else if deviation < -st.threshold then
      ({ should_trade := true, symbol_id := st.target_id, side := Side.buy,
         price := trade.price, qty := Quantity.from_float (1/100),
         ref_price := Price.from_float fairness }, st')
    else
      ({}, st')

/-! ## Claim C6: the first trade on the target symbol never fires -/

/-- Claim C6 as stated: for every target symbol and every configured
threshold, the first trade on the target produces `should_trade = false`. -/
def firstTradeClaim : Prop :=
  ∀ (target : Nat) (threshold : ℚ) (trade : TradeUpdate),
    trade.header.symbol_id = target →
      ((StatArbStrategy.make target threshold).on_trade trade).1.should_trade = false

/-- With a negative configured threshold (`-1`, accepted by the
constructor, which validates nothing), the first trade has deviation 0,
and `0 > -1` fires an immediate Sell signal. -/
theorem firstTradeClaim_false : ¬ firstTradeClaim := by
  intro h
  have h1 := h 1 (-1) ⟨⟨0, 0, 1, UpdateType.trade⟩, ⟨10000000000⟩, ⟨10000000⟩, Side.buy⟩ rfl
  norm_num [StatArbStrategy.on_trade, StatArbStrategy.make, EWMA.update, EWMA.make,
    Price.to_float, PRICE_SCALE] at h1

/-- C6 as amended: for every target symbol and every nonnegative
configured threshold, the first trade on the target symbol yields
`should_trade = false`, because the EWMA adopts that trade's price and the
deviation is exactly 0. -/
theorem first_trade_no_signal (target : Nat) (threshold : ℚ)
    (hth : 0 ≤ threshold) (trade : TradeUpdate)
    (hsym : trade.header.symbol_id = target) :
    ((StatArbStrategy.make target threshold).on_trade trade).1.should_trade = false := by
  simp [StatArbStrategy.on_trade, StatArbStrategy.make, EWMA.update, EWMA.make,
    hsym, sub_self, neg_pos, hth.not_lt]

/-- Witness for C6: the first trade at price 100.0 on symbol 1 with
threshold 0 produces no signal. -/
theorem first_trade_no_signal_witness :
    (0 : ℚ) ≤ 0 ∧
      ((StatArbStrategy.make 1 0).on_trade
          ⟨⟨0, 0, 1, UpdateType.trade⟩, ⟨10000000000⟩, ⟨10000000⟩, Side.buy⟩).1.should_trade
        = false :=
  ⟨by decide,
   first_trade_no_signal 1 0 (by decide)
     ⟨⟨0, 0, 1, UpdateType.trade⟩, ⟨10000000000⟩, ⟨10000000⟩, Side.buy⟩ rfl⟩

/-! ## core/ring_buffer.hpp: SPSC ring buffer

The C++ template `SPSCRingBuffer<T, Capacity>` keeps wrapped cursors
`head_`, `tail_` and a `Capacity`-element array; indices advance with
`(idx + 1) & (Capacity - 1)`, relying on the static assertion that
`Capacity` is a power of two.  The claims here concern the sequential
(one producer, one consumer, interleaved) semantics. -/

variable {T : Type} {C : Nat}

/-- The `SPSCRingBuffer` state: `head_`, `tail_` and the backing array
(modelled as a function from index to element). -/
structure SPSCRingBuffer (T : Type) (Capacity : Nat) where
  head : Nat
  tail : Nat
  buffer : Nat → T

/-- The default-constructed buffer: `head_ = tail_ = 0`; the array holds
arbitrary (default-initialized) contents `d`. -/
def SPSCRingBuffer.init (d : T) : SPSCRingBuffer T C := ⟨0, 0, fun _ => d⟩

/-- The `SPSCRingBuffer::push` (core/ring_buffer.hpp, lines 31-42): fail when
advancing `head_` would meet `tail_` (one slot stays reserved), else store
at the old `head_` and publish the new one. -/
def SPSCRingBuffer.push (rb : SPSCRingBuffer T C) (item : T) :
    Bool × SPSCRingBuffer T C :=
  let next_head := (rb.head + 1) &&& (C - 1)
  if next_head = rb.tail then
    (false, rb)
  else
    (true, { rb with head := next_head,
                     buffer := Function.update rb.buffer rb.head item })

/-- The `SPSCRingBuffer::pop` (core/ring_buffer.hpp, lines 45-55): fail when
`tail_ == head_`, else read the slot at `tail_` and advance it. -/
def SPSCRingBuffer.pop (rb : SPSCRingBuffer T C) :
    Option T × SPSCRingBuffer T C :=
  if rb.tail = rb.head then
    (Option.none, rb)
  else
    (Option.some (rb.buffer rb.tail),
     { rb with tail := (rb.tail + 1) &&& (C - 1) })

/-- The abstract queue a ring-buffer state represents: `q` lists the
unread items in FIFO order, sitting at wrapped indices `tail + i`. -/
def RingRepr (rb : SPSCRingBuffer T C) (q : List T) : Prop :=
  q.length < C ∧ rb.tail < C ∧ rb.head = (rb.tail + q.length) % C ∧
    ∀ i : Fin q.length, rb.buffer ((rb.tail + i.val) % C) = q.get i

/-- The bit-mask index wrap equals reduction mod the power-of-two capacity. -/
theorem mask_eq_mod (k x : Nat) : x &&& (2 ^ k - 1) = x % 2 ^ k :=
  Nat.and_pow_two_sub_one_eq_mod x k

/-- Cancel a common left summand of a mod-`C` congruence between small values. -/
theorem mod_add_cancel {t a b : Nat} (ha : a < C) (hb : b < C)
    (h : (t + a) % C = (t + b) % C) : a = b := by
  have h2 : a % C = b % C := Nat.ModEq.add_left_cancel' t h
  rwa [Nat.mod_eq_of_lt ha, Nat.mod_eq_of_lt hb] at h2

/-- A full ring (`C-1` buffered items) rejects a push and is unchanged. -/
theorem push_full {k : Nat} (rb : SPSCRingBuffer T (2 ^ k)) (q : List T)
    (h : RingRepr rb q) (x : T) (hlen : q.length = 2 ^ k - 1) :
    rb.push x = (false, rb) := by
  obtain ⟨hq, ht, hh, -⟩ := h
  have hC : 0 < 2 ^ k := Nat.two_pow_pos k
  unfold SPSCRingBuffer.push
  rw [mask_eq_mod, hh, Nat.mod_add_mod]
  have he : rb.tail + q.length + 1 = rb.tail + 2 ^ k := by omega
  rw [he, Nat.add_mod_right, Nat.mod_eq_of_lt ht, if_pos rfl]

/-- A non-full ring accepts a push, appending the item to the queue. -/
theorem push_succeeds {k : Nat} (rb : SPSCRingBuffer T (2 ^ k)) (q : List T)
    (h : RingRepr rb q) (x : T) (hlen : q.length ≠ 2 ^ k - 1) :
    (rb.push x).1 = true ∧ RingRepr (rb.push x).2 (q ++ [x]) := by
  obtain ⟨hq, ht, hh, hbuf⟩ := h
  have hC : 0 < 2 ^ k := Nat.two_pow_pos k
  have hcond : ((rb.head + 1) &&& (2 ^ k - 1)) ≠ rb.tail := by
    rw [mask_eq_mod, hh, Nat.mod_add_mod]
    intro heq
    have heq2 : (rb.tail + (q.length + 1)) % 2 ^ k = (rb.tail + 0) % 2 ^ k := by
      rw [show rb.tail + (q.length + 1) = rb.tail + q.length + 1 by omega, heq,
        Nat.add_zero, Nat.mod_eq_of_lt ht]
    rcases Nat.lt_or_ge (q.length + 1) (2 ^ k) with hlt | hge
    · have := mod_add_cancel hlt hC heq2
      omega
    · omega
  unfold SPSCRingBuffer.push
  rw [if_neg hcond]
  refine ⟨rfl, ?_, ?_, ?_, ?_⟩
  · simpa using by omega
  · exact ht
  · show (rb.head + 1) &&& (2 ^ k - 1) = (rb.tail + (q ++ [x]).length) % 2 ^ k
    rw [mask_eq_mod, hh, Nat.mod_add_mod]
    simp [Nat.add_assoc]
  · intro i
    show Function.update rb.buffer rb.head x ((rb.tail + i.val) % 2 ^ k)
        = (q ++ [x]).get i
    have hi : i.val < q.length + 1 := by simpa using i.isLt
    rcases Nat.lt_or_ge i.val q.length with hlt | hge
    · have hne : (rb.tail + i.val) % 2 ^ k ≠ rb.head := by
        rw [hh]
        intro heq
        have := mod_add_cancel (lt_trans hlt hq) hq heq
        omega
      rw [Function.update_noteq hne]
      have hv := hbuf ⟨i.val, hlt⟩
      rw [hv, List.get_eq_getElem, List.get_eq_getElem]
      exact (List.getElem_append_left (by simpa using hlt)).symm
    · have hiv : i.val = q.length := by omega
      have hidx : (rb.tail + i.val) % 2 ^ k = rb.head := by rw [hh, hiv]
      rw [hidx, Function.update_same]
      have : (q ++ [x]).get i = x := by
        rw [List.get_eq_getElem]
        simp [hiv]
      rw [this]

/-- An empty ring rejects a pop and is unchanged. -/
theorem pop_empty {k : Nat} (rb : SPSCRingBuffer T (2 ^ k))
    (h : RingRepr rb []) : rb.pop = (Option.none, rb) := by
  obtain ⟨-, ht, hh, -⟩ := h
  unfold SPSCRingBuffer.pop
  rw [if_pos]
  rw [hh]
  simp [Nat.mod_eq_of_lt ht]

/-- A non-empty ring pops its oldest item. -/
theorem pop_succeeds {k : Nat} (rb : SPSCRingBuffer T (2 ^ k)) (v : T)
    (rest : List T) (h : RingRepr rb (v :: rest)) :
    (rb.pop).1 = Option.some v ∧ RingRepr (rb.pop).2 rest := by
  obtain ⟨hq, ht, hh, hbuf⟩ := h
  have hC : 0 < 2 ^ k := Nat.two_pow_pos k
  have hlen : (v :: rest).length = rest.length + 1 := rfl
  have hcond : rb.tail ≠ rb.head := by
    rw [hh]
    intro heq
    have heq2 : (rb.tail + 0) % 2 ^ k = (rb.tail + (v :: rest).length) % 2 ^ k := by
      rw [Nat.add_zero, Nat.mod_eq_of_lt ht]
      exact heq
    have hz := mod_add_cancel hC hq heq2
    rw [hlen] at hz
    omega
  unfold SPSCRingBuffer.pop
  rw [if_neg hcond]
  have hv0 := hbuf ⟨0, by simp⟩
  have htail : (rb.tail + 0) % 2 ^ k = rb.tail := by
    rw [Nat.add_zero, Nat.mod_eq_of_lt ht]
  rw [htail] at hv0
  refine ⟨by simpa using hv0, ?_, ?_, ?_, ?_⟩
  · exact lt_trans (by simp [hlen]) hq
  · show (rb.tail + 1) &&& (2 ^ k - 1) < 2 ^ k
    rw [mask_eq_mod]
    exact Nat.mod_lt _ hC
  · show rb.head = (((rb.tail + 1) &&& (2 ^ k - 1)) + rest.length) % 2 ^ k
    rw [mask_eq_mod, Nat.mod_add_mod, hh]
    congr 1
    simp [hlen]
    try omega

  · intro i
    show rb.buffer ((((rb.tail + 1) &&& (2 ^ k - 1)) + i.val) % 2 ^ k) = rest.get i
    rw [mask_eq_mod, Nat.mod_add_mod]
    have hv := hbuf ⟨i.val + 1, by simp [hlen]⟩
    rw [show rb.tail + 1 + i.val = rb.tail + (i.val + 1) by omega]
    rw [hv]
    simp [List.get_eq_getElem]

/-- One operation of the sequential run harness: apply a push or a pop to
the ring and append the value to the pushed/popped observation trace when
the operation succeeds. -/
inductive RingOp (T : Type) where
  | push (x : T)
  | pop

/-- Run state: the ring plus the traces of successfully pushed and popped
values, in order. -/
structure RingRun (T : Type) (Capacity : Nat) where
  rb : SPSCRingBuffer T Capacity
  pushed : List T
  popped : List T

/-- Execute one operation. -/
def ringStep (s : RingRun T C) : RingOp T → RingRun T C
  | RingOp.push x =>
      let r := s.rb.push x
      { s with rb := r.2,
               pushed := if r.1 then s.pushed ++ [x] else s.pushed }
  | RingOp.pop =>
      let r := s.rb.pop
      match r.1 with
      | Option.some v => { s with rb := r.2, popped := s.popped ++ [v] }
      | Option.none => { s with rb := r.2 }

/-- Execute a whole operation sequence from the freshly constructed ring. -/
def ringRun (C : Nat) (d : T) (ops : List (RingOp T)) : RingRun T C :=
  ops.foldl ringStep ⟨SPSCRingBuffer.init d, [], []⟩

/-- Run invariant: some queue `q` of unread items is represented by the
ring, and the pushed trace is the popped trace followed by `q`. -/
def RunInv (s : RingRun T C) : Prop :=
  ∃ q, RingRepr s.rb q ∧ s.pushed = s.popped ++ q

theorem ringStep_inv {k : Nat} (s : RingRun T (2 ^ k)) (h : RunInv s)
    (op : RingOp T) : RunInv (ringStep s op) := by
  obtain ⟨q, hr, hpq⟩ := h
  cases op with
  | push x =>
      by_cases hlen : q.length = 2 ^ k - 1
      · have hp := push_full s.rb q hr x hlen
        refine ⟨q, ?_, ?_⟩
        · simpa [ringStep, hp] using hr
        · simpa [ringStep, hp] using hpq
      · obtain ⟨hok, hrep⟩ := push_succeeds s.rb q hr x hlen
        refine ⟨q ++ [x], ?_, ?_⟩
        · simpa [ringStep] using hrep
        · simp [ringStep, hok, hpq]
  | pop =>
      cases q with
      | nil =>
          have hp := pop_empty s.rb hr
          refine ⟨[], ?_, ?_⟩
          · simpa [ringStep, hp] using hr
          · simpa [ringStep, hp] using hpq
      | cons v rest =>
          obtain ⟨hv, hrep⟩ := pop_succeeds s.rb v rest hr
          refine ⟨rest, ?_, ?_⟩
          · simpa [ringStep, hv] using hrep
          · simp [ringStep, hv, hpq]

theorem ringRun_inv {k : Nat} (d : T) (ops : List (RingOp T)) :
    RunInv (ringRun (2 ^ k) d ops) := by
  suffices h : ∀ s : RingRun T (2 ^ k), RunInv s → RunInv (ops.foldl ringStep s) by
    refine h _ ⟨[], ⟨?_, ?_, ?_, ?_⟩, rfl⟩
    · simp
    · exact Nat.two_pow_pos k
    · simp [SPSCRingBuffer.init]
    · intro i
      exact absurd i.isLt (by simp)
  induction ops with
  | nil => intro s hs; exact hs
  | cons op rest ih => intro s hs; exact ih _ (ringStep_inv s hs op)

/-- The unread items of a ring state, read out of the array between the
cursors (wrapped). -/
def ringContents (rb : SPSCRingBuffer T C) : List T :=
  (List.range ((rb.head + C - rb.tail) % C)).map
    (fun i => rb.buffer ((rb.tail + i) % C))

/-- The `ringContents` recovers the represented queue. -/
theorem ringContents_of_repr {k : Nat} (rb : SPSCRingBuffer T (2 ^ k))
    (q : List T) (h : RingRepr rb q) : ringContents rb = q := by
  obtain ⟨hq, ht, hh, hbuf⟩ := h
  have hC : 0 < 2 ^ k := Nat.two_pow_pos k
  have hlen : (rb.head + 2 ^ k - rb.tail) % 2 ^ k = q.length := by
    rw [hh]
    rcases Nat.lt_or_ge (rb.tail + q.length) (2 ^ k) with hlt | hge
    · rw [Nat.mod_eq_of_lt hlt,
        show rb.tail + q.length + 2 ^ k - rb.tail = q.length + 2 ^ k by omega,
        Nat.add_mod_right, Nat.mod_eq_of_lt hq]
    · have h2 : rb.tail + q.length < 2 * 2 ^ k := by omega
      rw [Nat.mod_eq_sub_mod hge,
        Nat.mod_eq_of_lt (by omega : rb.tail + q.length - 2 ^ k < 2 ^ k),
        show rb.tail + q.length - 2 ^ k + 2 ^ k - rb.tail = q.length by omega,
        Nat.mod_eq_of_lt hq]
  apply List.ext_get
  · simp [ringContents, hlen]
  · intro n h1 h2
    have hn : n < q.length := by simpa [ringContents, hlen] using h1
    have := hbuf ⟨n, hn⟩
    simp only [ringContents, List.get_eq_getElem, List.getElem_map,
      List.getElem_range]
    exact this

/-- C3: over every sequential interleaving of pushes and pops on a ring of
power-of-two capacity `C = 2^k`, starting empty: at most `C-1` items are
ever buffered (each prefix of an arbitrary sequence being itself such a
sequence), push fails exactly when `C-1` items are buffered, pop fails
exactly when none are, and the popped trace followed by the still-buffered
items equals the pushed trace (FIFO order, popped a prefix of pushed). -/
theorem ring_buffer_sequential (k : Nat) (d : T) (ops : List (RingOp T)) (x : T) :
    (ringContents (ringRun (2 ^ k) d ops).rb).length ≤ 2 ^ k - 1 ∧
    (((ringRun (2 ^ k) d ops).rb.push x).1 = false ↔
      (ringContents (ringRun (2 ^ k) d ops).rb).length = 2 ^ k - 1) ∧
    (((ringRun (2 ^ k) d ops).rb.pop).1 = Option.none ↔
      ringContents (ringRun (2 ^ k) d ops).rb = []) ∧
    (ringRun (2 ^ k) d ops).pushed =
      (ringRun (2 ^ k) d ops).popped ++ ringContents (ringRun (2 ^ k) d ops).rb := by
  obtain ⟨q, hr, hpq⟩ := ringRun_inv d ops
  have hc := ringContents_of_repr _ q hr
  rw [hc]
  have hC : 0 < 2 ^ k := Nat.two_pow_pos k
  have hql := hr.1
  refine ⟨by omega, ?_, ?_, hpq⟩
  · constructor
    · intro hf
      by_contra hne
      obtain ⟨hok, -⟩ := push_succeeds _ q hr x hne
      rw [hf] at hok
      exact Bool.false_ne_true hok
    · intro hl
      rw [push_full _ q hr x hl]
  · constructor
    · intro hn
      cases q with
      | nil => rfl
      | cons v rest =>
          obtain ⟨hv, -⟩ := pop_succeeds _ v rest hr
          rw [hn] at hv
          exact Option.noConfusion hv
    · intro hq
      subst hq
      rw [pop_empty _ hr]

/-! ## risk/kill_switch.hpp: the global kill switch -/

/-- The `KillSwitch` state: the single atomic boolean `active_`. -/
structure KillSwitch where
  active : Bool

/-- The `KillSwitch::is_active`. -/
def KillSwitch.is_active (k : KillSwitch) : Bool := k.active

/-- The `KillSwitch::trigger(reason)`: sets the flag; the reason is not stored. -/
def KillSwitch.trigger (k : KillSwitch) (_reason : String) : KillSwitch :=
  { k with active := true }

/-- The `KillSwitch::reset`. -/
def KillSwitch.reset (k : KillSwitch) : KillSwitch :=
  { k with active := false }

/-! ## core/logger.hpp log levels and the engine's audit records -/

/-- The `LogLevel` from core/logger.hpp (src/unnamed/part_002). -/
inductive LogLevel where
  | DEBUG
  | INFO
  | WARN
  | ERROR
deriving DecidableEq, Repr

/-- The two formatted audit messages `ExecutionEngine::execute_signal`
produces via `Logger::logf` ("ORDER_SENT id=%llu sym=%u px=%f qty=%f" and
"RISK_REJECT id=%llu sym=%u"), modelled structurally. -/
inductive AuditMsg where
  | orderSent (id : Nat) (sym : Nat) (px : ℚ) (qty : ℚ)
  | riskReject (id : Nat) (sym : Nat)
deriving DecidableEq

/-- An audit record: level plus message. -/
structure AuditRecord where
  level : LogLevel
  msg : AuditMsg
deriving DecidableEq

/-- The order id carried by an audit record (both message forms carry one). -/
def AuditRecord.orderId (r : AuditRecord) : Nat :=
  match r.msg with
  | AuditMsg.orderSent id _ _ _ => id
  | AuditMsg.riskReject id _ => id

/-! ## execution/execution_engine.hpp (src/unnamed/part_009)

The engine is templated over the strategy and gateway; here the strategy
is a state type `S` with a step function and the gateway a state type `G`
with a send function.  Besides the engine's own fields (`risk_`,
`next_order_id_`), the state carries the audit log records pushed to the
logger and, as an observation trace, the order ids copied into
`OrderCommand`s (`assigned`). -/

/-- Engine state plus observation traces. -/
structure EngineState (S G : Type) where
  strategy : S
  gateway : G
  next_order_id : Nat
  logs : List AuditRecord
  assigned : List Nat

/-- A freshly constructed engine: `next_order_id_ = 1`, nothing logged. -/
def EngineState.init {S G : Type} (s : S) (g : G) : EngineState S G :=
  ⟨s, g, 1, [], []⟩

/-- The `ExecutionEngine::execute_signal` (src/unnamed/part_009, lines 32-60):
build the command, assign `order_id = next_order_id_++`, run the risk
check, and either send through the gateway with an INFO ORDER_SENT record
or drop with a WARN RISK_REJECT record.  The id is consumed either way.
Note the source consults only `risk_.check_new_order`; the kill switch is
never read. -/
def execute_signal {S G : Type} (gwSend : G → OrderCommand → G)
    (risk : RiskCheck) (st : EngineState S G) (signal : Signal) :
    EngineState S G :=
  let cmd : OrderCommand :=
    { symbol_id := signal.symbol_id, order_id := st.next_order_id,
      price := signal.price, qty := signal.qty, side := signal.side }
  let st1 := { st with next_order_id := st.next_order_id + 1,
                       assigned := st.assigned ++ [cmd.order_id] }
  if risk.check_new_order cmd signal.ref_price then
    { st1 with
      gateway := gwSend st1.gateway cmd,
      logs := st1.logs ++ [⟨LogLevel.INFO,
        AuditMsg.orderSent cmd.order_id cmd.symbol_id cmd.price.to_float
          cmd.qty.to_float⟩] }
  else
    { st1 with
      logs := st1.logs ++ [⟨LogLevel.WARN,
        AuditMsg.riskReject cmd.order_id cmd.symbol_id⟩] }

/-- The `ExecutionEngine::on_trade` (src/unnamed/part_009, lines 22-29). -/
def engine_on_trade {S G : Type} (stratF : S → TradeUpdate → Signal × S)
    (gwSend : G → OrderCommand → G) (risk : RiskCheck)
    (st : EngineState S G) (trade : TradeUpdate) : EngineState S G :=
  let r := stratF st.strategy trade
  let st1 := { st with strategy := r.2 }
  if r.1.should_trade then execute_signal gwSend risk st1 r.1 else st1

/-- Feed a whole trade sequence through the engine. -/
def engine_run {S G : Type} (stratF : S → TradeUpdate → Signal × S)
    (gwSend : G → OrderCommand → G) (risk : RiskCheck)
    (st : EngineState S G) (trades : List TradeUpdate) : EngineState S G :=
  trades.foldl (engine_on_trade stratF gwSend risk) st

/-- How many signals with `should_trade = true` the strategy emits over a
trade sequence (the signals the engine "considers"). -/
def countSignals {S : Type} (stratF : S → TradeUpdate → Signal × S) :
    S → List TradeUpdate → Nat
  | _, [] => 0
  | s, t :: ts =>
      (if (stratF s t).1.should_trade then 1 else 0) +
        countSignals stratF (stratF s t).2 ts

/-! ## Claim C4: order-id assignment -/

theorem engine_on_trade_fields {S G : Type}
    (stratF : S → TradeUpdate → Signal × S) (gwSend : G → OrderCommand → G)
    (risk : RiskCheck) (st : EngineState S G) (t : TradeUpdate) :
    (engine_on_trade stratF gwSend risk st t).strategy = (stratF st.strategy t).2 ∧
    ((stratF st.strategy t).1.should_trade = true →
      (engine_on_trade stratF gwSend risk st t).assigned
          = st.assigned ++ [st.next_order_id] ∧
      (engine_on_trade stratF gwSend risk st t).next_order_id
          = st.next_order_id + 1) ∧
    ((stratF st.strategy t).1.should_trade = false →
      (engine_on_trade stratF gwSend risk st t).assigned = st.assigned ∧
      (engine_on_trade stratF gwSend risk st t).next_order_id
          = st.next_order_id) := by
  by_cases hs : (stratF st.strategy t).1.should_trade
  · simp only [engine_on_trade, execute_signal, hs, if_true]
    split_ifs <;> simp [hs]
  · simp only [engine_on_trade, execute_signal,
      Bool.eq_false_iff.mpr hs, if_false]
    simp [Bool.eq_false_iff.mpr hs]

theorem engine_run_ids {S G : Type} (stratF : S → TradeUpdate → Signal × S)
    (gwSend : G → OrderCommand → G) (risk : RiskCheck)
    (trades : List TradeUpdate) :
    ∀ st : EngineState S G,
      (engine_run stratF gwSend risk st trades).assigned =
        st.assigned ++ List.range' st.next_order_id
          (countSignals stratF st.strategy trades) ∧
      (engine_run stratF gwSend risk st trades).next_order_id =
        st.next_order_id + countSignals stratF st.strategy trades := by
  induction trades with
  | nil =>
      intro st
      simp [engine_run, countSignals]
  | cons t ts ih =>
      intro st
      have hstep : engine_run stratF gwSend risk st (t :: ts)
          = engine_run stratF gwSend risk
              (engine_on_trade stratF gwSend risk st t) ts := rfl
      obtain ⟨hstrat, hyes, hno⟩ := engine_on_trade_fields stratF gwSend risk st t
      obtain ⟨iha, ihn⟩ := ih (engine_on_trade stratF gwSend risk st t)
      rw [hstep]
      by_cases hs : (stratF st.strategy t).1.should_trade
      · obtain ⟨ha, hn⟩ := hyes hs
        have hc : countSignals stratF st.strategy (t :: ts)
            = countSignals stratF (stratF st.strategy t).2 ts + 1 := by
          simp only [countSignals, hs, if_true]
          omega
        constructor
        · rw [iha, ha, hn, hstrat, hc, List.range'_succ st.next_order_id _ 1]
          simp
        · rw [ihn, hn, hstrat, hc]
          omega
      · obtain ⟨ha, hn⟩ := hno (Bool.eq_false_iff.mpr hs)
        have hc : countSignals stratF st.strategy (t :: ts)
            = countSignals stratF (stratF st.strategy t).2 ts := by
          simp [countSignals, hs]
        constructor
        · rw [iha, ha, hn, hstrat, hc]
        · rw [ihn, hn, hstrat, hc]

/-- C4: over any trade sequence, any strategy and gateway, and any risk
configuration, the order ids assigned by the engine (in assignment order)
are exactly `1, 2, ..., n` where `n` is the number of `should_trade`
signals the engine considered — including signals whose orders the risk
check rejects — so they start at 1, increase by exactly 1 each, and are
never reused; afterwards `next_order_id` is `1 + n`. -/
theorem engine_order_ids {S G : Type} (stratF : S → TradeUpdate → Signal × S)
    (gwSend : G → OrderCommand → G) (risk : RiskCheck) (s : S) (g : G)
    (trades : List TradeUpdate) :
    (engine_run stratF gwSend risk (EngineState.init s g) trades).assigned =
      List.range' 1 (countSignals stratF s trades) ∧
    (engine_run stratF gwSend risk (EngineState.init s g) trades).next_order_id =
      1 + countSignals stratF s trades ∧
    (engine_run stratF gwSend risk (EngineState.init s g) trades).assigned.Nodup ∧
    List.Pairwise (· < ·)
      (engine_run stratF gwSend risk (EngineState.init s g) trades).assigned := by
  obtain ⟨ha, hn⟩ := engine_run_ids stratF gwSend risk trades (EngineState.init s g)
  refine ⟨?_, ?_, ?_, ?_⟩
  · simpa [EngineState.init] using ha
  · simpa [EngineState.init] using hn
  · rw [show (engine_run stratF gwSend risk (EngineState.init s g) trades).assigned
        = List.range' 1 (countSignals stratF s trades) by
      simpa [EngineState.init] using ha]
    exact List.nodup_range' 1 _ 1 one_pos
  · rw [show (engine_run stratF gwSend risk (EngineState.init s g) trades).assigned
        = List.range' 1 (countSignals stratF s trades) by
      simpa [EngineState.init] using ha]
    exact List.pairwise_lt_range' 1 _ 1 one_pos

/-! ## Claim C1: the kill switch and the risk gate

In the source, `RiskCheck::check_new_order` has no kill-switch check (its
"Check 3" comment covers only the omitted rate limit), and
`KillSwitch::is_active` has no caller anywhere in the repository.  The
engine's behaviour is a function of the trades, strategy and risk config
alone; the theorem below exhibits a run that sends an order and logs
INFO ORDER_SENT regardless of the kill-switch state, even armed. -/

/-- The two-trade scenario of the claim: trades at 100.0 then 99.0 on
symbol 1 with threshold 0.5, which fires a Buy signal at 99.0 against an
EWMA reference of 99.9. -/
def c1Trades : List TradeUpdate :=
  [⟨⟨0, 0, 1, UpdateType.trade⟩, ⟨10000000000⟩, ⟨10000000⟩, Side.buy⟩,
   ⟨⟨0, 0, 1, UpdateType.trade⟩, ⟨9900000000⟩, ⟨10000000⟩, Side.buy⟩]

/-- A risk configuration all of whose limit checks the fired order
satisfies: max qty 1.0 (1e8 units) and max price deviation 2.0 (2e8
ticks). -/
def c1Risk : RiskCheck := ⟨⟨⟨100000000⟩, ⟨200000000⟩, 100⟩⟩

/-- C1 (refuting the claim): for every kill-switch state — including one
just armed by `trigger` — the engine run over `c1Trades` calls the
gateway with the order and logs INFO ORDER_SENT, not WARN RISK_REJECT:
neither `check_new_order` nor `execute_signal` reads the kill switch. -/
theorem killswitch_not_consulted (ks : KillSwitch) :
    (ks.trigger ("armed")).is_active = true ∧
    (engine_run StatArbStrategy.on_trade
        (fun (g : List OrderCommand) (cmd : OrderCommand) => g ++ [cmd])
        c1Risk (EngineState.init (StatArbStrategy.make 1 (1/2)) [])
        c1Trades).gateway
      = [⟨1, 1, ⟨9900000000⟩, ⟨1000000⟩, Side.buy⟩] ∧
    (engine_run StatArbStrategy.on_trade
        (fun (g : List OrderCommand) (cmd : OrderCommand) => g ++ [cmd])
        c1Risk (EngineState.init (StatArbStrategy.make 1 (1/2)) [])
        c1Trades).logs
      = [⟨LogLevel.INFO, AuditMsg.orderSent 1 1 99 (1/100)⟩] := by
  refine ⟨rfl, ?_⟩
  norm_num [engine_run, engine_on_trade, execute_signal, EngineState.init,
    c1Trades, c1Risk, StatArbStrategy.on_trade, StatArbStrategy.make,
    EWMA.update, EWMA.make, Price.to_float, Price.from_float,
    Quantity.from_float, round_dbl, RiskCheck.check_new_order,
    Quantity.to_float, PRICE_SCALE, QTY_SCALE, List.foldl]

/-! ## core/logger.hpp (src/unnamed/part_002): the asynchronous logger -/

/-- The `LogEntry`: timestamp, level and the fixed 128-byte message buffer
(127 content characters plus the terminator), modelled as a string
truncated to 127 characters. -/
structure LogEntry where
  ts : Int
  level : LogLevel
  message : String

/-- The `Logger` hot-path state: the 4096-slot SPSC queue and the `running_`
flag.  The background worker and the output file are off the hot path and
not modelled. -/
structure Logger where
  queue : SPSCRingBuffer LogEntry 4096
  running : Bool

/-- The queue-full condition under which `SPSCRingBuffer::push` fails. -/
def SPSCRingBuffer.isFull (rb : SPSCRingBuffer T C) : Prop :=
  ((rb.head + 1) &&& (C - 1)) = rb.tail

instance (rb : SPSCRingBuffer T C) : Decidable rb.isFull :=
  inferInstanceAs (Decidable (_ = _))

/-- The `Logger::log` (src/unnamed/part_002, lines 53-64): build the entry on
the caller's stack (`ts = now_nanos()`, modelled by the `now` argument;
message truncated to 127 characters) and push it.  The push result is
discarded. -/
def Logger.log (lg : Logger) (now : Int) (level : LogLevel) (msg : String) :
    Logger :=
  let entry : LogEntry := ⟨now, level, msg.take 127⟩
  { lg with queue := (lg.queue.push entry).2 }

/-- The `Logger::logf` (lines 67-77): the same, with the message produced by
`snprintf` from the format string and arguments (`formatted` stands for
the formatted output, likewise truncated to 127 characters). -/
def Logger.logf (lg : Logger) (now : Int) (level : LogLevel)
    (formatted : String) : Logger :=
  let entry : LogEntry := ⟨now, level, formatted.take 127⟩
  { lg with queue := (lg.queue.push entry).2 }

/-! ## Claim C9: silent drop on a full queue -/

/-- C9: when the 4096-slot log queue is full, `log` and `logf` each
attempt one push, which fails and leaves the queue untouched; the whole
logger state is returned unchanged — no blocking loop, no retry, and no
record of the drop anywhere in the state. -/
theorem logger_drop_silent (lg : Logger) (now : Int) (level : LogLevel)
    (msg : String) (h : lg.queue.isFull) :
    lg.log now level msg = lg ∧ lg.logf now level msg = lg := by
  have h' : ((lg.queue.head + 1) &&& (4096 - 1)) = lg.queue.tail := h
  constructor
  · simp [Logger.log, SPSCRingBuffer.push, h']
  · simp [Logger.logf, SPSCRingBuffer.push, h']

/-- A concretely full logger queue: `head = 4095`, `tail = 0`. -/
def fullLogger : Logger :=
  ⟨⟨4095, 0, fun _ => ⟨0, LogLevel.INFO, ""⟩⟩, true⟩

/-- Witness for C9: a WARN record pushed to the full queue is dropped and
the logger is bit-for-bit unchanged. -/
theorem logger_drop_silent_witness :
    fullLogger.queue.isFull ∧
      (fullLogger.log 0 LogLevel.WARN ("RISK_REJECT id=1 sym=1") = fullLogger ∧
       fullLogger.logf 0 LogLevel.WARN ("RISK_REJECT id=1 sym=1") = fullLogger) :=
  ⟨by decide,
   logger_drop_silent fullLogger 0 LogLevel.WARN ("RISK_REJECT id=1 sym=1")
     (by decide)⟩

end Hft
